import Mathlib

/-
Verification of the Call Intake Classification & Appointment Scheduling Engine.
The definitions below are a shallow embedding of the TypeScript services
(HVACIntelligenceService, AppointmentService, CallMonitorService) of the
Axion repository.  Times are modelled as natural numbers (minutes within a
day, or milliseconds since the epoch where noted); JavaScript strings are
modelled as Lean strings.
-/

/-- Model of the JavaScript `String.prototype.toLowerCase` (ASCII case). -/
def toLowerStr (s : String) : String := String.mk (s.data.map Char.toLower)

/-- Does the text start with the given pattern (on character lists)? -/
def startsWithL : List Char → List Char → Bool
  | [], _ => true
  | _ :: _, [] => false
  | p :: ps, t :: ts => p == t && startsWithL ps ts

/-- Naive substring search on character lists; models JS `includes`. -/
def hasSubList : List Char → List Char → Bool
  | [], pat => startsWithL pat []
  | c :: ts, pat => startsWithL pat (c :: ts) || hasSubList ts pat

/-- Model of the JavaScript `String.prototype.includes`. -/
def strIncludes (s sub : String) : Bool := hasSubList s.data sub.data

/-- Call types of the dashboard `CallType` enum. -/
inductive CallType where
  | EMERGENCY
  | SERVICE_REQUEST
  | APPOINTMENT_BOOKING
  | GENERAL_INQUIRY
  | PRICE_ESTIMATE
deriving DecidableEq

/-- Priority tiers of the `Priority` enum. -/
inductive Priority where
  | LOW
  | MEDIUM
  | HIGH
  | EMERGENCY
deriving DecidableEq

/-- The `EmergencyKeywords` record of `HVACIntelligenceService`. -/
structure EmergencyKeywords where
  heating : List String
  cooling : List String
  plumbing : List String
  electrical : List String
  general : List String

/-- The keyword table `HVACIntelligenceService.emergencyKeywords`. -/
def emergencyKeywords : EmergencyKeywords :=
  { heating := ["no heat", "heat not working", "furnace not working", "boiler not working",
      "heat pump not working", "cold house", "freezing", "furnace making noise",
      "gas smell", "carbon monoxide", "furnace won\x27t start", "pilot light out",
      "heater broken", "no hot air", "thermostat not working"]
    cooling := ["no ac", "air conditioning not working", "ac not working", "no cold air",
      "air conditioner broken", "ac unit not working", "hot house", "overheating",
      "ac making noise", "ac leaking water", "compressor not working", "fan not working",
      "ac won\x27t start", "condenser not working"]
    plumbing := ["water leak", "flooding", "pipe burst", "water damage", "water everywhere",
      "basement flooding", "pipe leaking", "water heater leaking", "sewage backup",
      "toilet overflowing", "drain backing up"]
    electrical := ["electrical smell", "burning smell", "sparks", "electrical fire", "power out",
      "breaker tripping", "electrical emergency", "wires sparking", "outlet smoking",
      "electrical shock"]
    general := ["emergency", "urgent", "asap", "right now", "immediately", "help",
      "broken", "not working", "stopped working", "emergency service"] }

/-- All emergency keyword categories in `Object.values` iteration order. -/
def allEmergencyKeywords : List String :=
  emergencyKeywords.heating ++ emergencyKeywords.cooling ++ emergencyKeywords.plumbing ++
    emergencyKeywords.electrical ++ emergencyKeywords.general

/-- `HVACIntelligenceService.detectEmergency`: true iff the lower-cased
transcript contains some emergency keyword (first match short-circuits,
which `List.any` models). -/
def detectEmergency (transcript : String) : Bool :=
  let lowerTranscript := toLowerStr transcript
  allEmergencyKeywords.any (fun keyword => strIncludes lowerTranscript keyword)

/-- Keyword list of `containsAppointmentKeywords`. -/
def appointmentKeywords : List String :=
  ["appointment", "schedule", "book", "visit", "come out",
   "service call", "technician", "when can you", "available"]

/-- `HVACIntelligenceService.containsAppointmentKeywords` (takes the already
lower-cased transcript, as in the source). -/
def containsAppointmentKeywords (transcript : String) : Bool :=
  appointmentKeywords.any (fun keyword => strIncludes transcript keyword)

/-- Keyword list of `containsPriceKeywords`. -/
def priceKeywords : List String :=
  ["cost", "price", "estimate", "quote", "how much", "fee",
   "charge", "rate", "pricing", "affordable", "cheap", "expensive"]

/-- `HVACIntelligenceService.containsPriceKeywords`. -/
def containsPriceKeywords (transcript : String) : Bool :=
  priceKeywords.any (fun keyword => strIncludes transcript keyword)

/-- Keyword list of `containsServiceKeywords`. -/
def serviceKeywords : List String :=
  ["repair", "fix", "maintenance", "service", "install", "replace",
   "tune-up", "cleaning", "inspection", "hvac", "air conditioner",
   "furnace", "heat pump", "thermostat"]

/-- `HVACIntelligenceService.containsServiceKeywords`. -/
def containsServiceKeywords (transcript : String) : Bool :=
  serviceKeywords.any (fun keyword => strIncludes transcript keyword)

/-- `HVACIntelligenceService.classifyCallType`: ordered first-match-wins
rule list. -/
def classifyCallType (transcript : String) : CallType :=
  let lowerTranscript := toLowerStr transcript
  if detectEmergency transcript then CallType.EMERGENCY
  else if containsAppointmentKeywords lowerTranscript then CallType.APPOINTMENT_BOOKING
  else if containsPriceKeywords lowerTranscript then CallType.PRICE_ESTIMATE
  else if containsServiceKeywords lowerTranscript then CallType.SERVICE_REQUEST
  else CallType.GENERAL_INQUIRY

/-- The `serviceMap` of `extractServiceType`, in `Object.entries` order. -/
def serviceMap : List (String × List String) :=
  [("heating", ["heat", "furnace", "boiler", "heating", "heater"]),
   ("cooling", ["ac", "air conditioning", "cooling", "air conditioner", "central air"]),
   ("heat_pump", ["heat pump"]),
   ("thermostat", ["thermostat"]),
   ("ductwork", ["duct", "ductwork", "vents"]),
   ("maintenance", ["tune-up", "maintenance", "cleaning", "service"]),
   ("installation", ["install", "new", "replacement"])]

/-- `HVACIntelligenceService.extractServiceType`: every category whose
keyword list matches the lower-cased transcript, else `["general_hvac"]`. -/
def extractServiceType (transcript : String) : List String :=
  let lowerTranscript := toLowerStr transcript
  let services := serviceMap.filterMap (fun p =>
    if p.2.any (fun keyword => strIncludes lowerTranscript keyword) then some p.1 else none)
  if services.length > 0 then services else ["general_hvac"]

/-- C6: `classifyCallType` applies its rules in fixed first-match-wins order:
EMERGENCY (iff `detectEmergency`), then APPOINTMENT_BOOKING, then
PRICE_ESTIMATE, then SERVICE_REQUEST, then GENERAL_INQUIRY as default; in
particular a text matching both the scheduling and the cost vocabulary but
no emergency keyword classifies as APPOINTMENT_BOOKING, and the two quoted
example transcripts classify as APPOINTMENT_BOOKING and PRICE_ESTIMATE. -/
theorem classifyCallType_order :
    (∀ t, detectEmergency t = true → classifyCallType t = CallType.EMERGENCY) ∧
    (∀ t, detectEmergency t = false → containsAppointmentKeywords (toLowerStr t) = true →
      classifyCallType t = CallType.APPOINTMENT_BOOKING) ∧
    (∀ t, detectEmergency t = false → containsAppointmentKeywords (toLowerStr t) = false →
      containsPriceKeywords (toLowerStr t) = true →
      classifyCallType t = CallType.PRICE_ESTIMATE) ∧
    (∀ t, detectEmergency t = false → containsAppointmentKeywords (toLowerStr t) = false →
      containsPriceKeywords (toLowerStr t) = false → containsServiceKeywords (toLowerStr t) = true →
      classifyCallType t = CallType.SERVICE_REQUEST) ∧
    (∀ t, detectEmergency t = false → containsAppointmentKeywords (toLowerStr t) = false →
      containsPriceKeywords (toLowerStr t) = false → containsServiceKeywords (toLowerStr t) = false →
      classifyCallType t = CallType.GENERAL_INQUIRY) ∧
    classifyCallType "I want to schedule an appointment" = CallType.APPOINTMENT_BOOKING ∧
    classifyCallType "How much does furnace repair cost?" = CallType.PRICE_ESTIMATE := by
  refine ⟨?_, ?_, ?_, ?_, ?_, by decide, by decide⟩ <;>
    · intro t
      intros
      simp [classifyCallType, *]

/-- Witness for C6 at a transcript matching both the scheduling and the cost
vocabulary but no emergency keyword. -/
theorem classifyCallType_order_witness :
    detectEmergency "can you book a visit and how much does it cost" = false ∧
    containsAppointmentKeywords (toLowerStr "can you book a visit and how much does it cost") = true ∧
    containsPriceKeywords (toLowerStr "can you book a visit and how much does it cost") = true ∧
    classifyCallType "can you book a visit and how much does it cost" =
      CallType.APPOINTMENT_BOOKING :=
  ⟨by decide, by decide, by decide, classifyCallType_order.2.1 _ (by decide) (by decide)⟩

/-- C7: `extractServiceType` never returns the empty list; it includes every
category whose keyword list matches the lower-cased transcript; when no
category matches it returns exactly `["general_hvac"]`; and on the quoted
example transcript it returns `["general_hvac"]`. -/
theorem extractServiceType_spec :
    (∀ t, extractServiceType t ≠ []) ∧
    (∀ t cat kws, (cat, kws) ∈ serviceMap →
      (∃ kw ∈ kws, strIncludes (toLowerStr t) kw = true) → cat ∈ extractServiceType t) ∧
    (∀ t, (∀ p ∈ serviceMap, ∀ kw ∈ p.2, strIncludes (toLowerStr t) kw = false) →
      extractServiceType t = ["general_hvac"]) ∧
    extractServiceType "I have some issues with my system" = ["general_hvac"] := by
  refine ⟨?_, ?_, ?_, by decide⟩
  · intro t
    simp only [extractServiceType]
    split
    · next h =>
      intro hnil
      rw [hnil] at h
      simp at h
    · simp
  · intro t cat kws hmem hkw
    obtain ⟨kw, hkwmem, hinc⟩ := hkw
    have hcat : cat ∈ serviceMap.filterMap (fun p =>
        if p.2.any (fun keyword => strIncludes (toLowerStr t) keyword) then some p.1 else none) := by
      refine List.mem_filterMap.mpr ⟨(cat, kws), hmem, ?_⟩
      have : kws.any (fun keyword => strIncludes (toLowerStr t) keyword) = true :=
        List.any_eq_true.mpr ⟨kw, hkwmem, hinc⟩
      simp [this]
    simp only [extractServiceType]
    rw [if_pos]
    · exact hcat
    · exact List.length_pos.mpr (List.ne_nil_of_mem hcat)
  · intro t hnone
    simp only [extractServiceType]
    have hempty : serviceMap.filterMap (fun p =>
        if p.2.any (fun keyword => strIncludes (toLowerStr t) keyword) then some p.1 else none)
        = [] := by
      refine List.filterMap_eq_nil_iff.mpr ?_
      intro p hp
      have : p.2.any (fun keyword => strIncludes (toLowerStr t) keyword) = false := by
        refine List.any_eq_false.mpr ?_
        intro kw hkw
        simp [hnone p hp kw hkw]
      simp [this]
    rw [hempty]
    simp

/-- Witness for C7: a transcript matching the heating keyword list yields a
list containing the heating category. -/
theorem extractServiceType_spec_witness :
    "heating" ∈ extractServiceType "my furnace is noisy" :=
  extractServiceType_spec.2.1 "my furnace is noisy" "heating"
    ["heat", "furnace", "boiler", "heating", "heater"] (by decide)
    ⟨"furnace", by decide, by decide⟩

/-- The `basePrices` table of `estimateServicePrice`: category name to
(min, max) base price in dollars. -/
def basePrices : List (String × (Nat × Nat)) :=
  [("heating", (150, 800)),
   ("cooling", (125, 600)),
   ("thermostat", (200, 400)),
   ("maintenance", (125, 250)),
   ("installation", (2000, 8000)),
   ("general_hvac", (125, 500))]

/-- Property lookup `basePrices[serviceName] || basePrices.general_hvac`. -/
def lookupBasePrice (serviceName : String) : Nat × Nat :=
  match basePrices.find? (fun p => p.1 == serviceName) with
  | some p => p.2
  | none => (125, 500)

/-- The JavaScript expression `serviceType[0] || 'general_hvac'`: the first
element of the list, with the empty list and the (falsy) empty string both
falling back to `general_hvac`. -/
def jsHeadService (serviceType : List String) : String :=
  match serviceType with
  | [] => "general_hvac"
  | s :: _ => if s == "" then "general_hvac" else s

/-- The surcharge multiplier of `estimateServicePrice` as an exact rational:
starts at 1, is multiplied by 1.5 when emergency and then by 1.25 when
after-hours.  The JavaScript doubles 1, 1.5, 1.25 and 1.875 represent these
values exactly, so the float computation in the source agrees with ℚ. -/
def priceMultiplier (isEmergency isAfterHours : Bool) : ℚ :=
  let m : ℚ := 1
  let m := if isEmergency then m * (1.5 : ℚ) else m
  if isAfterHours then m * (1.25 : ℚ) else m

/-- JavaScript `Math.round`: round half toward positive infinity. -/
def jsRound (x : ℚ) : ℤ := ⌊x + (1 : ℚ) / 2⌋

/-- The multiplier carried as a numerator over the fixed denominator 8: the
four possible values 1, 1.5, 1.25 and 1.875 are 8, 12, 10 and 15 eighths.
Every intermediate product is an exact multiple of 1/8, so this mirrors the
source's `multiplier *= 1.5; multiplier *= 1.25` without rounding error. -/
def multiplierEighths (isEmergency isAfterHours : Bool) : Nat :=
  let m := 8
  let m := if isEmergency then m * 12 / 8 else m
  if isAfterHours then m * 10 / 8 else m

/-- `Math.round (n / 8)` for a natural numerator `n`. -/
def roundEighths (n : Nat) : Nat := (n + 4) / 8

/-- The numeric range (`estimatedMin`, `estimatedMax`) computed inside
`estimateServicePrice`: base price times the surcharge multiplier, rounded. -/
def estimatedRange (serviceType : List String) (isEmergency isAfterHours : Bool) : Nat × Nat :=
  let basePrice := lookupBasePrice (jsHeadService serviceType)
  let m := multiplierEighths isEmergency isAfterHours
  (roundEighths (basePrice.1 * m), roundEighths (basePrice.2 * m))

/-- JavaScript `serviceName.replace(UNDERSCORE, SPACE)`: replaces only the
first occurrence. -/
def replaceFirstUnderscoreL : List Char → List Char
  | [] => []
  | c :: cs => if c == '_' then ' ' :: cs else c :: replaceFirstUnderscoreL cs

/-- String version of `replaceFirstUnderscoreL`. -/
def replaceFirstUnderscore (s : String) : String := String.mk (replaceFirstUnderscoreL s.data)

/-- `HVACIntelligenceService.estimateServicePrice`: builds the spoken price
text, appending the emergency and the after-hours disclosure when the
respective flag is set. -/
def estimateServicePrice (serviceType : List String) (isEmergency isAfterHours : Bool) : String :=
  let serviceName := jsHeadService serviceType
  let r := estimatedRange serviceType isEmergency isAfterHours
  let priceText := "For " ++ replaceFirstUnderscore serviceName ++
    " service, our typical range is $" ++ toString r.1 ++ "-$" ++ toString r.2
  let priceText := if isEmergency then priceText ++ " (emergency service rates apply)" else priceText
  let priceText := if isAfterHours then priceText ++ " (after-hours rates apply)" else priceText
  priceText ++ ". The final price depends on the specific issue and parts needed. We provide upfront pricing before any work begins."

/-- The category names `extractServiceType` can produce. -/
def classifierServiceTypes : List String :=
  serviceMap.map Prod.fst ++ ["general_hvac"]

/-- Rounding bridge: the natural-number pipeline `(n + 4) / 8` is exactly
`Math.round (n / 8)` over ℚ. -/
theorem natRoundDiv8 (n : Nat) : (((n + 4) / 8 : Nat) : ℤ) = jsRound ((n : ℚ) / 8) := by
  have h : ((n : ℚ) / 8 + 1 / 2) = ((n + 4 : Nat) : ℚ) / ((8 : Nat) : ℚ) := by
    push_cast
    ring
  rw [jsRound, h, ← Int.natCast_floor_eq_floor (by positivity), Nat.floor_div_eq_div]

/-- The eighths numerator agrees with the exact rational multiplier. -/
theorem multiplierEighths_eq (e a : Bool) :
    (multiplierEighths e a : ℚ) = 8 * priceMultiplier e a := by
  cases e <;> cases a <;> norm_num [multiplierEighths, priceMultiplier]

/-- The computable range is the rounded base-times-multiplier product. -/
theorem estimatedRange_eq (l : List String) (e a : Bool) :
    ((estimatedRange l e a).1 : ℤ) =
      jsRound ((lookupBasePrice (jsHeadService l)).1 * priceMultiplier e a) ∧
    ((estimatedRange l e a).2 : ℤ) =
      jsRound ((lookupBasePrice (jsHeadService l)).2 * priceMultiplier e a) := by
  have key : ∀ b : Nat, (((b * multiplierEighths e a + 4) / 8 : Nat) : ℤ) =
      jsRound ((b : ℚ) * priceMultiplier e a) := by
    intro b
    rw [natRoundDiv8 (b * multiplierEighths e a)]
    congr 1
    push_cast [multiplierEighths_eq]
    ring
  exact ⟨key _, key _⟩

/-- No classifier category is the empty string. -/
theorem classifierServiceTypes_ne_empty :
    ∀ s ∈ classifierServiceTypes, (s == "") = false := by decide

/-- `serviceType[0] || general_hvac` is idempotent. -/
theorem jsHeadService_idem (l : List String) :
    jsHeadService [jsHeadService l] = jsHeadService l := by
  cases l with
  | nil => rfl
  | cons s rest =>
    simp only [jsHeadService]
    by_cases h : (s == "") = true
    · simp [h]
    · simp only [Bool.not_eq_true] at h
      simp [h]

/-- The whole price text depends only on the (defaulted) head category. -/
theorem estimateServicePrice_head (l : List String) (e a : Bool) :
    estimateServicePrice l e a = estimateServicePrice [jsHeadService l] e a := by
  simp only [estimateServicePrice, estimatedRange, jsHeadService_idem]

/-- With valid categories the head is itself a valid category. -/
theorem jsHeadService_mem (l : List String) (hl : ∀ s ∈ l, s ∈ classifierServiceTypes) :
    jsHeadService l ∈ classifierServiceTypes := by
  cases l with
  | nil => decide
  | cons s rest =>
    have hs := hl s (List.mem_cons_self s rest)
    have hne := classifierServiceTypes_ne_empty s hs
    simp only [jsHeadService, hne]
    simpa using hs

/-- Finite check: over all classifier categories and both flags, each
disclosure appears in the price text exactly when its flag is set. -/
theorem priceText_marks_finite :
    ∀ s ∈ classifierServiceTypes, ∀ e a : Bool,
      strIncludes (estimateServicePrice [s] e a) "emergency service rates apply" = e ∧
      strIncludes (estimateServicePrice [s] e a) "after-hours rates apply" = a := by decide

/-- C8: for service-type lists drawn from the classifier's categories the
surcharges compose multiplicatively: the numeric range is the base min/max
each multiplied by the exact multiplier (1.5 when emergency, a further 1.25
when after-hours) and then rounded as `Math.round` does, the disclosure
"emergency service rates apply" appears in the text iff the emergency flag
is set, "after-hours rates apply" appears iff the after-hours flag is set,
and for `["heating"]` with both flags the range is the heating base range
times 1.875, rounded: ($281, $1500). -/
theorem estimateServicePrice_surcharges :
    (∀ l, (∀ s ∈ l, s ∈ classifierServiceTypes) → ∀ e a : Bool,
      strIncludes (estimateServicePrice l e a) "emergency service rates apply" = e ∧
      strIncludes (estimateServicePrice l e a) "after-hours rates apply" = a) ∧
    (∀ l : List String,
      ((estimatedRange l true true).1 : ℤ) =
        jsRound ((lookupBasePrice (jsHeadService l)).1 * ((1.5 : ℚ) * (1.25 : ℚ))) ∧
      ((estimatedRange l true true).2 : ℤ) =
        jsRound ((lookupBasePrice (jsHeadService l)).2 * ((1.5 : ℚ) * (1.25 : ℚ)))) ∧
    estimatedRange ["heating"] true true = (281, 1500) ∧
    (jsRound ((150 : ℚ) * ((1.5 : ℚ) * (1.25 : ℚ))) = 281 ∧
     jsRound ((800 : ℚ) * ((1.5 : ℚ) * (1.25 : ℚ))) = 1500) := by
  refine ⟨?_, ?_, by decide, by norm_num [jsRound], by norm_num [jsRound]⟩
  · intro l hl e a
    rw [estimateServicePrice_head]
    exact priceText_marks_finite (jsHeadService l) (jsHeadService_mem l hl) e a
  · intro l
    have h := estimatedRange_eq l true true
    have hm : priceMultiplier true true = (1.5 : ℚ) * (1.25 : ℚ) := by
      norm_num [priceMultiplier]
    rw [hm] at h
    exact h

/-- Witness for C8 at the list `["heating"]` with only the emergency flag. -/
theorem estimateServicePrice_surcharges_witness :
    strIncludes (estimateServicePrice ["heating"] true false) "emergency service rates apply" = true ∧
    strIncludes (estimateServicePrice ["heating"] true false) "after-hours rates apply" = false :=
  estimateServicePrice_surcharges.1 ["heating"] (by decide) true false

/-- C10: the price estimate depends only on the first element of the
service-type list; a first element absent from the base price table — such
as the classifier-producible `heat_pump` and `ductwork` — is priced with the
`general_hvac` base range of $125 to $500. -/
theorem estimateServicePrice_first_element :
    (∀ (s : String) (rest : List String) (e a : Bool),
      estimateServicePrice (s :: rest) e a = estimateServicePrice [s] e a ∧
      estimatedRange (s :: rest) e a = estimatedRange [s] e a) ∧
    (∀ (s : String) (rest : List String) (e a : Bool),
      (∀ p ∈ basePrices, p.1 ≠ s) →
      estimatedRange (s :: rest) e a = estimatedRange ["general_hvac"] e a) ∧
    estimatedRange ["heat_pump"] false false = (125, 500) ∧
    estimatedRange ["ductwork"] false false = (125, 500) := by
  refine ⟨?_, ?_, by decide, by decide⟩
  · intro s rest e a
    constructor
    · simp only [estimateServicePrice, estimatedRange, jsHeadService]
    · simp only [estimatedRange, jsHeadService]
  · intro s rest e a hs
    have hfind : basePrices.find? (fun p => p.1 == s) = none := by
      refine List.find?_eq_none.mpr ?_
      intro p hp
      simpa using hs p hp
    by_cases hemp : (s == "") = true
    · have : s = "" := by simpa using hemp
      simp [estimatedRange, jsHeadService, this]
    · simp only [Bool.not_eq_true] at hemp
      have hhead : jsHeadService (s :: rest) = s := by
        simp [jsHeadService, hemp]
      simp only [estimatedRange, hhead, lookupBasePrice, hfind]
      rfl

/-- Witness for C10: `heat_pump` with a second matched category is priced
exactly as `general_hvac`. -/
theorem estimateServicePrice_first_element_witness :
    estimatedRange ["heat_pump", "cooling"] true false =
      estimatedRange ["general_hvac"] true false :=
  estimateServicePrice_first_element.2.1 "heat_pump" ["cooling"] true false (by decide)

/-- A wall-clock time in the 12-hour format stored in business hours, such
as 9:00 AM: the result of splitting the string into hour, minute and
period, as `parseTime` does. -/
structure Time12 where
  hours : Nat
  minutes : Nat
  period : String
deriving DecidableEq

/-- `HVACIntelligenceService.parseTime`: converts the 12-hour time to the
hours-times-100-plus-minutes encoding. -/
def parseTime (t : Time12) : Nat :=
  let hour24 :=
    if t.period == "PM" && t.hours != 12 then t.hours + 12
    else if t.period == "AM" && t.hours == 12 then 0
    else t.hours
  hour24 * 100 + t.minutes

/-- One weekday's entry of the business-hours table. -/
structure DayHours where
  isClosed : Bool
  openTime : Time12
  closeTime : Time12
deriving DecidableEq

/-- `HVACIntelligenceService.isAfterHours`: the current day is looked up by
weekday (0 = Sunday, as JS `getDay`), the current wall-clock time is encoded
as hours*100+minutes, and the day counts as after-hours when marked closed
or when the current time is before the opening or after the closing time. -/
def isAfterHours (businessHours : Fin 7 → DayHours) (dayOfWeek : Fin 7)
    (nowHours nowMinutes : Nat) : Bool :=
  let currentTime := nowHours * 100 + nowMinutes
  let todayHours := businessHours dayOfWeek
  if todayHours.isClosed then true
  else
    let openT := parseTime todayHours.openTime
    let closeT := parseTime todayHours.closeTime
    decide (currentTime < openT) || decide (closeT < currentTime)

/-- Modelled from the spec: the after-hours predicate as C5 states it, with
the half-open business interval [open, close), so that an instant exactly
at the closing time counts as after-hours. -/
def specAfterHours (businessHours : Fin 7 → DayHours) (dayOfWeek : Fin 7)
    (nowHours nowMinutes : Nat) : Prop :=
  (businessHours dayOfWeek).isClosed = true ∨
    nowHours * 100 + nowMinutes < parseTime (businessHours dayOfWeek).openTime ∨
    parseTime (businessHours dayOfWeek).closeTime ≤ nowHours * 100 + nowMinutes

/-- A 9:00 AM to 5:00 PM weekly schedule used as a concrete input. -/
def nineToFiveHours : Fin 7 → DayHours :=
  fun _ => { isClosed := false
             openTime := { hours := 9, minutes := 0, period := "AM" }
             closeTime := { hours := 5, minutes := 0, period := "PM" } }

/-- Counterexample to C5: at 5:00 PM sharp on a day open 9:00 AM to 5:00 PM
the instant lies outside the half-open interval [open, close) claimed by the
spec, yet `isAfterHours` returns false — the code treats the interval as
closed at its right end. -/
theorem isAfterHours_closing_counterexample :
    isAfterHours nineToFiveHours 1 17 0 = false ∧
    specAfterHours nineToFiveHours 1 17 0 := by
  constructor
  · decide
  · right
    right
    decide

/-- C5 (amended): `isAfterHours` returns true iff the day is marked closed
or the current wall-clock encoding falls outside the CLOSED interval
[open, close]; an instant exactly at the closing time is still within
hours, unlike the half-open interval the claim states. -/
theorem isAfterHours_iff (businessHours : Fin 7 → DayHours) (dayOfWeek : Fin 7)
    (nowHours nowMinutes : Nat) :
    isAfterHours businessHours dayOfWeek nowHours nowMinutes = true ↔
      ((businessHours dayOfWeek).isClosed = true ∨
        nowHours * 100 + nowMinutes < parseTime (businessHours dayOfWeek).openTime ∨
        parseTime (businessHours dayOfWeek).closeTime < nowHours * 100 + nowMinutes) := by
  simp only [isAfterHours]
  by_cases h : (businessHours dayOfWeek).isClosed = true
  · simp [h]
  · simp only [Bool.not_eq_true] at h
    simp [h]

/-- One row of the active-appointment query used by `getAvailableSlots`:
scheduled start and estimated duration, both in minutes (the start is
minutes since midnight of the queried day). -/
structure Appt where
  start : Nat
  estimatedDuration : Nat
deriving DecidableEq

/-- 08:00, the `startOfDay` of `getAvailableSlots`, in minutes. -/
def startOfDayMin : Nat := 8 * 60

/-- 17:00, the `endOfDay` of `getAvailableSlots`, in minutes. -/
def endOfDayMin : Nat := 17 * 60

/-- The 30-minute `slotInterval`. -/
def slotInterval : Nat := 30

/-- The candidate start times generated by the slot loop: 08:00, 08:30, …
while strictly before 17:00 — eighteen candidates, since
(17:00 − 08:00) / 30 = 18. -/
def slotTimes : List Nat := (List.range 18).map (fun i => startOfDayMin + slotInterval * i)

/-- The three overlap conditions tested inside `getAvailableSlots` for one
existing appointment: candidate starts inside it, candidate ends inside it,
or candidate fully contains it. -/
def conflictsWith (time duration : Nat) (appt : Appt) : Bool :=
  let slotEnd := time + duration
  let apptStart := appt.start
  let apptEnd := appt.start + appt.estimatedDuration
  (decide (apptStart ≤ time) && decide (time < apptEnd)) ||
    (decide (apptStart < slotEnd) && decide (slotEnd ≤ apptEnd)) ||
    (decide (time ≤ apptStart) && decide (apptEnd ≤ slotEnd))

/-- The `hasConflict` check of `getAvailableSlots`. -/
def hasConflict (time duration : Nat) (existingAppointments : List Appt) : Bool :=
  existingAppointments.any (conflictsWith time duration)

/-- `AppointmentService.getAvailableSlots`: the candidate start times whose
requested interval conflicts with no existing active appointment of that
company and day; `existingAppointments` stands for the rows of the query
(status neither cancelled nor completed, same company and date). -/
def getAvailableSlots (existingAppointments : List Appt) (duration : Nat) : List Nat :=
  slotTimes.filter (fun time => ! hasConflict time duration existingAppointments)

/-- C1: every slot returned by `getAvailableSlots` is interval-disjoint from
every existing active appointment: the candidate interval
[slot, slot+duration) and the appointment interval
[start, start+estimatedDuration) do not intersect. -/
theorem getAvailableSlots_disjoint (existingAppointments : List Appt) (duration slot : Nat)
    (hslot : slot ∈ getAvailableSlots existingAppointments duration) :
    ∀ appt ∈ existingAppointments,
      slot + duration ≤ appt.start ∨ appt.start + appt.estimatedDuration ≤ slot := by
  intro appt happt
  have hfilter := (List.mem_filter.mp hslot).2
  have hnoconf : hasConflict slot duration existingAppointments = false := by
    simpa using hfilter
  have hone : conflictsWith slot duration appt = false := by
    have hall := List.any_eq_false.mp hnoconf
    exact Bool.not_eq_true _ ▸ eq_false_of_ne_true (hall appt happt)
  simp only [conflictsWith, Bool.or_eq_false_iff, Bool.and_eq_false_iff,
    decide_eq_false_iff_not, not_lt, not_le] at hone
  omega

/-- Witness for C1: with one 9:00–10:00 appointment, 8:00 is returned and is
disjoint from it. -/
theorem getAvailableSlots_disjoint_witness :
    (480 ∈ getAvailableSlots [{ start := 540, estimatedDuration := 60 }] 60) ∧
    ({ start := 540, estimatedDuration := 60 : Appt } ∈
        [{ start := 540, estimatedDuration := 60 : Appt }]) ∧
    (480 + 60 ≤ 540 ∨ 540 + 60 ≤ 480) :=
  ⟨by decide, by decide,
    getAvailableSlots_disjoint [{ start := 540, estimatedDuration := 60 }] 60 480 (by decide)
      { start := 540, estimatedDuration := 60 } (by decide)⟩

/-- The slot candidates are strictly increasing. -/
theorem slotTimes_sorted : slotTimes.Sorted (· < ·) := by decide

/-- Filtering keeps the candidates strictly increasing. -/
theorem getAvailableSlots_sorted (appts : List Appt) (duration : Nat) :
    (getAvailableSlots appts duration).Sorted (· < ·) :=
  List.Pairwise.sublist (List.filter_sublist _) slotTimes_sorted

/-- The head of a strictly sorted list is its least element. -/
theorem sorted_head_least (l : List Nat) (hl : l.Sorted (· < ·)) (s : Nat)
    (h : l.head? = some s) : s ∈ l ∧ ∀ x ∈ l, s ≤ x := by
  cases l with
  | nil => simp at h
  | cons a t =>
    simp only [List.head?_cons, Option.some.injEq] at h
    subst h
    refine ⟨List.mem_cons_self _ _, ?_⟩
    intro x hx
    rcases List.mem_cons.mp hx with rfl | hxt
    · exact le_refl _
    · exact le_of_lt ((List.pairwise_cons.mp hl).1 x hxt)

/-- The inputs `getNextAvailableSlot` reads from its environment: the current
time of day in minutes, today's JS weekday (0 = Sunday), and the active
appointments of the company for each day `daysAhead` from today. -/
structure ScheduleContext where
  nowMinutes : Nat
  todayWeekday : Nat
  appointmentsOn : Nat → List Appt

/-- `setMinutes(0,0,0)` followed by `setHours(getHours()+1)`: the strictly
next hour boundary after now. -/
def nextHourBoundary (now : Nat) : Nat := (now / 60 + 1) * 60

/-- `AppointmentService.findEmergencySlot`: today's available slots for a
widened 120-minute duration, filtered to those at or after the next hour
boundary; the first such slot, or none. -/
def findEmergencySlot (ctx : ScheduleContext) : Option Nat :=
  let emergencySlots := getAvailableSlots (ctx.appointmentsOn 0) 120
  let nextHour := nextHourBoundary ctx.nowMinutes
  let suitableSlots := emergencySlots.filter (fun slot => decide (nextHour ≤ slot))
  suitableSlots.head?

/-- The day-by-day loop of `getNextAvailableSlot`: `rem` days of horizon
remain, `daysAhead` is the current offset from today.  Sundays
(`(todayWeekday + daysAhead) % 7 = 0`) are skipped; the first day with an
available slot yields that day's first slot; an exhausted horizon yields
the fallback of 14 days out at 09:00, encoded as (14, 540). -/
def searchLoop (ctx : ScheduleContext) : Nat → Nat → Nat × Nat
  | 0, _ => (14, 9 * 60)
  | rem + 1, daysAhead =>
    if (ctx.todayWeekday + daysAhead) % 7 == 0 then searchLoop ctx rem (daysAhead + 1)
    else
      match getAvailableSlots (ctx.appointmentsOn daysAhead) 60 with
      | [] => searchLoop ctx rem (daysAhead + 1)
      | slot :: _ => (daysAhead, slot)

/-- `AppointmentService.getNextAvailableSlot`: the emergency fast path tries
`findEmergencySlot` first and otherwise falls through to the standard
14-day search; results are (daysAhead, minutes) pairs. -/
def getNextAvailableSlot (ctx : ScheduleContext) (priority : Priority) : Nat × Nat :=
  if priority = Priority.EMERGENCY then
    match findEmergencySlot ctx with
    | some slot => (0, slot)
    | none => searchLoop ctx 14 0
  else searchLoop ctx 14 0

/-- A day the standard search passes over: a Sunday, or a day without slots. -/
def skipOrEmptyDay (ctx : ScheduleContext) (d : Nat) : Prop :=
  (ctx.todayWeekday + d) % 7 = 0 ∨ getAvailableSlots (ctx.appointmentsOn d) 60 = []

/-- Full characterisation of the search loop, by induction on the remaining
horizon: either every remaining day is skipped or empty and the fallback is
returned, or the first non-skipped day with a slot is returned with its
first slot. -/
theorem searchLoop_spec (ctx : ScheduleContext) : ∀ rem daysAhead : Nat,
    ((∀ k < rem, skipOrEmptyDay ctx (daysAhead + k)) ∧
      searchLoop ctx rem daysAhead = (14, 9 * 60)) ∨
    (∃ k < rem, ¬ skipOrEmptyDay ctx (daysAhead + k) ∧
      (∀ j < k, skipOrEmptyDay ctx (daysAhead + j)) ∧
      ∃ slot rest, getAvailableSlots (ctx.appointmentsOn (daysAhead + k)) 60 = slot :: rest ∧
        searchLoop ctx rem daysAhead = (daysAhead + k, slot)) := by
  intro rem
  induction rem with
  | zero =>
    intro daysAhead
    left
    exact ⟨fun k hk => absurd hk (Nat.not_lt_zero k), rfl⟩
  | succ n ih =>
    intro daysAhead
    by_cases hsun : (ctx.todayWeekday + daysAhead) % 7 = 0
    · have hskip : skipOrEmptyDay ctx daysAhead := Or.inl hsun
      have hloop : searchLoop ctx (n + 1) daysAhead = searchLoop ctx n (daysAhead + 1) := by
        simp [searchLoop, hsun]
      rcases ih (daysAhead + 1) with ⟨hall, heq⟩ | ⟨k, hk, hnot, hprev, slot, rest, hslots, heq⟩
      · left
        refine ⟨?_, hloop ▸ heq⟩
        intro k hk
        cases k with
        | zero => simpa using hskip
        | succ j =>
          have := hall j (by omega)
          have harith : daysAhead + 1 + j = daysAhead + (j + 1) := by omega
          rwa [harith] at this
      · right
        refine ⟨k + 1, by omega, ?_, ?_, slot, rest, ?_, ?_⟩
        · have harith : daysAhead + (k + 1) = daysAhead + 1 + k := by omega
          rwa [harith]
        · intro j hj
          cases j with
          | zero => simpa using hskip
          | succ i =>
            have := hprev i (by omega)
            have harith : daysAhead + 1 + i = daysAhead + (i + 1) := by omega
            rwa [harith] at this
        · have harith : daysAhead + (k + 1) = daysAhead + 1 + k := by omega
          rwa [harith]
        · have harith : daysAhead + (k + 1) = daysAhead + 1 + k := by omega
          rw [hloop, harith]
          exact heq
    · cases hslots : getAvailableSlots (ctx.appointmentsOn daysAhead) 60 with
      | nil =>
        have hskip : skipOrEmptyDay ctx daysAhead := Or.inr hslots
        have hloop : searchLoop ctx (n + 1) daysAhead = searchLoop ctx n (daysAhead + 1) := by
          simp [searchLoop, hsun, hslots]
        rcases ih (daysAhead + 1) with ⟨hall, heq⟩ | ⟨k, hk, hnot, hprev, slot, rest, hslots2, heq⟩
        · left
          refine ⟨?_, hloop ▸ heq⟩
          intro k hk
          cases k with
          | zero => simpa using hskip
          | succ j =>
            have := hall j (by omega)
            have harith : daysAhead + 1 + j = daysAhead + (j + 1) := by omega
            rwa [harith] at this
        · right
          refine ⟨k + 1, by omega, ?_, ?_, slot, rest, ?_, ?_⟩
          · have harith : daysAhead + (k + 1) = daysAhead + 1 + k := by omega
            rwa [harith]
          · intro j hj
            cases j with
            | zero => simpa using hskip
            | succ i =>
              have := hprev i (by omega)
              have harith : daysAhead + 1 + i = daysAhead + (i + 1) := by omega
              rwa [harith] at this
          · have harith : daysAhead + (k + 1) = daysAhead + 1 + k := by omega
            rwa [harith]
          · have harith : daysAhead + (k + 1) = daysAhead + 1 + k := by omega
            rw [hloop, harith]
            exact heq
      | cons slot rest =>
        right
        refine ⟨0, by omega, ?_, ?_, slot, rest, ?_, ?_⟩
        · intro habs
          rcases habs with h | h
          · simp at h
            exact hsun (by simpa using h)
          · rw [Nat.add_zero] at h
            rw [h] at hslots
            exact List.noConfusion hslots
        · intro j hj
          exact absurd hj (Nat.not_lt_zero j)
        · simpa using hslots
        · simp [searchLoop, hsun, hslots]

/-- C3: with EMERGENCY priority, `getNextAvailableSlot` first searches the
remainder of the current day from the next hour boundary after now, using
the widened 120-minute default duration, and returns the earliest such
same-day slot; only when no such slot exists does it fall back to the
standard multi-day search (the same search a MEDIUM-priority call runs). -/
theorem getNextAvailableSlot_emergency (ctx : ScheduleContext) :
    (∀ s, findEmergencySlot ctx = some s →
      s ∈ getAvailableSlots (ctx.appointmentsOn 0) 120 ∧
      nextHourBoundary ctx.nowMinutes ≤ s ∧
      (∀ u ∈ getAvailableSlots (ctx.appointmentsOn 0) 120,
        nextHourBoundary ctx.nowMinutes ≤ u → s ≤ u) ∧
      getNextAvailableSlot ctx Priority.EMERGENCY = (0, s)) ∧
    (findEmergencySlot ctx = none →
      (∀ u ∈ getAvailableSlots (ctx.appointmentsOn 0) 120,
        u < nextHourBoundary ctx.nowMinutes) ∧
      getNextAvailableSlot ctx Priority.EMERGENCY = getNextAvailableSlot ctx Priority.MEDIUM) := by
  constructor
  · intro s hs
    have hsorted : ((getAvailableSlots (ctx.appointmentsOn 0) 120).filter
        (fun slot => decide (nextHourBoundary ctx.nowMinutes ≤ slot))).Sorted (· < ·) :=
      List.Pairwise.sublist (List.filter_sublist _) (getAvailableSlots_sorted _ _)
    have hhead := sorted_head_least _ hsorted s hs
    have hmem := List.mem_filter.mp hhead.1
    refine ⟨hmem.1, of_decide_eq_true hmem.2, ?_, ?_⟩
    · intro u hu hge
      exact hhead.2 u (List.mem_filter.mpr ⟨hu, decide_eq_true hge⟩)
    · simp [getNextAvailableSlot, hs]
  · intro hnone
    have hempty : (getAvailableSlots (ctx.appointmentsOn 0) 120).filter
        (fun slot => decide (nextHourBoundary ctx.nowMinutes ≤ slot)) = [] :=
      List.head?_eq_none_iff.mp hnone
    constructor
    · intro u hu
      by_contra hlt
      have hge : nextHourBoundary ctx.nowMinutes ≤ u := Nat.le_of_not_lt hlt
      have : u ∈ ((getAvailableSlots (ctx.appointmentsOn 0) 120).filter
          (fun slot => decide (nextHourBoundary ctx.nowMinutes ≤ slot))) :=
        List.mem_filter.mpr ⟨hu, decide_eq_true hge⟩
      rw [hempty] at this
      exact absurd this (List.not_mem_nil u)
    · simp [getNextAvailableSlot, hnone]

/-- A concrete context for the emergency-path witness: 14:25 on a Tuesday
with no appointments today. -/
def emergencyWitnessCtx : ScheduleContext :=
  { nowMinutes := 865, todayWeekday := 2, appointmentsOn := fun _ => [] }

/-- Witness for C3: at 14:25 the next hour boundary is 15:00 and the
emergency path books today's 15:00 slot. -/
theorem getNextAvailableSlot_emergency_witness :
    findEmergencySlot emergencyWitnessCtx = some 900 ∧
    getNextAvailableSlot emergencyWitnessCtx Priority.EMERGENCY = (0, 900) :=
  ⟨by decide, ((getNextAvailableSlot_emergency emergencyWitnessCtx).1 900 (by decide)).2.2.2⟩

/-- C4: with any non-EMERGENCY priority, `getNextAvailableSlot` runs the
14-day forward scan: it skips Sundays, returns the earliest slot of the
first day that has one, and when every day of the horizon is skipped or
fully booked it returns the deterministic fallback of 14 days out at 09:00
(encoded (14, 540)) instead of failing. -/
theorem getNextAvailableSlot_standard (ctx : ScheduleContext) (priority : Priority)
    (hp : priority ≠ Priority.EMERGENCY) :
    getNextAvailableSlot ctx priority = searchLoop ctx 14 0 ∧
    (∀ d m, searchLoop ctx 14 0 = (d, m) → d < 14 →
      (ctx.todayWeekday + d) % 7 ≠ 0 ∧
      m ∈ getAvailableSlots (ctx.appointmentsOn d) 60 ∧
      (∀ u ∈ getAvailableSlots (ctx.appointmentsOn d) 60, m ≤ u) ∧
      (∀ e < d, skipOrEmptyDay ctx e)) ∧
    ((∀ d < 14, skipOrEmptyDay ctx d) → searchLoop ctx 14 0 = (14, 9 * 60)) := by
  refine ⟨by simp [getNextAvailableSlot, hp], ?_, ?_⟩
  · intro d m heq hd
    rcases searchLoop_spec ctx 14 0 with ⟨hall, hfall⟩ | ⟨k, hk, hnot, hprev, slot, rest, hslots, hres⟩
    · rw [heq] at hfall
      have : d = 14 := (Prod.mk.injEq _ _ _ _).mp hfall |>.1
      omega
    · rw [heq] at hres
      obtain ⟨hdk, hms⟩ := (Prod.mk.injEq _ _ _ _).mp hres
      simp only [Nat.zero_add] at hdk
      subst hdk
      subst hms
      have hmemb : m ∈ getAvailableSlots (ctx.appointmentsOn d) 60 := by
        rw [show (0 : Nat) + d = d by omega] at hslots
        rw [hslots]
        exact List.mem_cons_self _ _
      refine ⟨?_, hmemb, ?_, ?_⟩
      · intro habs
        exact hnot (by simpa using Or.inl habs)
      · intro u hu
        have hsorted := getAvailableSlots_sorted (ctx.appointmentsOn d) 60
        have hhead : (getAvailableSlots (ctx.appointmentsOn d) 60).head? = some m := by
          rw [show (0 : Nat) + d = d by omega] at hslots
          rw [hslots]
          rfl
        exact (sorted_head_least _ hsorted m hhead).2 u hu
      · intro e he
        have := hprev e (by omega)
        simpa using this
  · intro hall
    rcases searchLoop_spec ctx 14 0 with ⟨_, hfall⟩ | ⟨k, hk, hnot, _, _, _, _, _⟩
    · exact hfall
    · exact absurd (hall k (by omega)) (by simpa using hnot)

/-- A concrete context for the standard-path witness: Saturday with no
appointments. -/
def standardWitnessCtx : ScheduleContext :=
  { nowMinutes := 600, todayWeekday := 6, appointmentsOn := fun _ => [] }

/-- Witness for C4: a MEDIUM-priority request on an empty Saturday resolves
to today's 08:00 slot via the standard scan. -/
theorem getNextAvailableSlot_standard_witness :
    getNextAvailableSlot standardWitnessCtx Priority.MEDIUM = searchLoop standardWitnessCtx 14 0 ∧
    (standardWitnessCtx.todayWeekday + 0) % 7 ≠ 0 ∧
    480 ∈ getAvailableSlots (standardWitnessCtx.appointmentsOn 0) 60 ∧
    (∀ u ∈ getAvailableSlots (standardWitnessCtx.appointmentsOn 0) 60, 480 ≤ u) ∧
    (∀ e < 0, skipOrEmptyDay standardWitnessCtx e) := by
  have h := getNextAvailableSlot_standard standardWitnessCtx Priority.MEDIUM (by decide)
  have hchar := h.2.1 0 480 (by decide) (by decide)
  exact ⟨h.1, hchar.1, hchar.2.1, hchar.2.2.1, hchar.2.2.2⟩

/-- Lifecycle states of an `ActiveCall`. -/
inductive CallStatus where
  | ringing
  | answered
  | inProgress
  | ending
deriving DecidableEq

/-- Coarse sentiment values of an `ActiveCall`. -/
inductive Sentiment where
  | positive
  | neutral
  | negative
deriving DecidableEq

/-- The `ActiveCall` record of `CallMonitorService`; `startTime` is a
millisecond epoch timestamp, `duration` is in seconds. -/
structure ActiveCall where
  id : String
  companyId : String
  customerPhone : String
  status : CallStatus
  startTime : Nat
  duration : Nat
  isEmergency : Bool
  transcript : String
  sentiment : Sentiment
deriving DecidableEq

/-- A `Partial<ActiveCall>`: each field either absent or overriding. -/
structure CallUpdates where
  id : Option String := none
  companyId : Option String := none
  customerPhone : Option String := none
  status : Option CallStatus := none
  startTime : Option Nat := none
  duration : Option Nat := none
  isEmergency : Option Bool := none
  transcript : Option String := none
  sentiment : Option Sentiment := none
deriving DecidableEq

/-- `Object.assign(call, updates)`: present fields override. -/
def applyCallUpdates (call : ActiveCall) (updates : CallUpdates) : ActiveCall :=
  { id := updates.id.getD call.id
    companyId := updates.companyId.getD call.companyId
    customerPhone := updates.customerPhone.getD call.customerPhone
    status := updates.status.getD call.status
    startTime := updates.startTime.getD call.startTime
    duration := updates.duration.getD call.duration
    isEmergency := updates.isEmergency.getD call.isEmergency
    transcript := updates.transcript.getD call.transcript
    sentiment := updates.sentiment.getD call.sentiment }

/-- Observable socket events emitted to dashboard subscribers. -/
inductive MonitorEvent where
  | callStarted (companyId : String) (call : ActiveCall)
  | callUpdated (companyId : String) (call : ActiveCall) (updates : CallUpdates)
  | callEnded (companyId : String) (call : ActiveCall) (reason : String)
  | emergencyDetected (companyId : String) (call : ActiveCall)
  | emergencyAlertSent (callId : String) (customerPhone : String)
deriving DecidableEq

/-- Observable database writes issued by the service. -/
inductive DbWrite where
  | callStatus (callId : String) (status : String)
  | emergencyFlag (callId : String)
  | finalRecord (callId : String) (duration : Nat) (transcript : String) (isEmergency : Bool)
deriving DecidableEq

/-- The live-call registry `activeCalls : Map` modelled as an association
list in insertion order, plus the logs of observable side effects. -/
structure MonitorState where
  activeCalls : List (String × ActiveCall)
  events : List MonitorEvent
  dbWrites : List DbWrite
deriving DecidableEq

/-- `Map.get`. -/
def mapGet (m : List (String × ActiveCall)) (k : String) : Option ActiveCall :=
  (m.find? (fun p => p.1 == k)).map Prod.snd

/-- `Map.set`: replaces in place when the key exists, appends otherwise. -/
def mapSet (m : List (String × ActiveCall)) (k : String) (v : ActiveCall) :
    List (String × ActiveCall) :=
  if m.any (fun p => p.1 == k) then m.map (fun p => if p.1 == k then (k, v) else p)
  else m ++ [(k, v)]

/-- `Map.delete`. -/
def mapDelete (m : List (String × ActiveCall)) (k : String) : List (String × ActiveCall) :=
  m.filter (fun p => ! (p.1 == k))

/-- Registry mutation: `activeCalls.set`. -/
def setCall (s : MonitorState) (callId : String) (call : ActiveCall) : MonitorState :=
  { s with activeCalls := mapSet s.activeCalls callId call }

/-- Registry mutation: `activeCalls.delete`. -/
def delCall (s : MonitorState) (callId : String) : MonitorState :=
  { s with activeCalls := mapDelete s.activeCalls callId }

/-- Observable side effect: a socket emit. -/
def emitEvent (s : MonitorState) (ev : MonitorEvent) : MonitorState :=
  { s with events := s.events ++ [ev] }

/-- Observable side effect: a database write. -/
def writeDb (s : MonitorState) (w : DbWrite) : MonitorState :=
  { s with dbWrites := s.dbWrites ++ [w] }

/-- `CallMonitorService.addActiveCall`: registers a fresh ringing,
non-emergency call, emits `call-started` and writes the initial status. -/
def addActiveCall (now : Nat) (id companyId customerPhone : String)
    (s : MonitorState) : MonitorState :=
  let activeCall : ActiveCall :=
    { id := id, companyId := companyId, customerPhone := customerPhone
      status := CallStatus.ringing, startTime := now, duration := 0
      isEmergency := false, transcript := "", sentiment := Sentiment.neutral }
  writeDb (emitEvent (setCall s id activeCall) (MonitorEvent.callStarted companyId activeCall))
    (DbWrite.callStatus id "ringing")

/-- The side-effect bundle of `handleEmergencyDetection`: the
`emergency-detected` event, the SMS alert, and the database flag. -/
def handleEmergencyDetection (call : ActiveCall) (s : MonitorState) : MonitorState :=
  writeDb (emitEvent (emitEvent s (MonitorEvent.emergencyDetected call.companyId call))
      (MonitorEvent.emergencyAlertSent call.id call.customerPhone))
    (DbWrite.emergencyFlag call.id)

/-- The merge step of `updateCall`: `Object.assign(call, updates)` followed
by the duration recomputation. -/
def mergedCall (now : Nat) (call : ActiveCall) (updates : CallUpdates) : ActiveCall :=
  let merged := applyCallUpdates call updates
  { merged with duration := (now - merged.startTime) / 1000 }

/-- `CallMonitorService.updateCall`: no-op on an unknown id; otherwise merge
the partial updates, recompute the duration, emit `call-updated`, and when
the updates carry a non-empty transcript fragment and the merged call is
not already flagged, run emergency detection on the fragment and on a hit
set the flag and fire the emergency side effects. -/
def updateCall (now : Nat) (callId : String) (updates : CallUpdates)
    (s : MonitorState) : MonitorState :=
  match mapGet s.activeCalls callId with
  | none => s
  | some call =>
    let merged := mergedCall now call updates
    let s1 := emitEvent (setCall s callId merged)
      (MonitorEvent.callUpdated merged.companyId merged updates)
    match updates.transcript with
    | none => s1
    | some fragment =>
      if fragment != "" && ! merged.isEmergency && detectEmergency fragment then
        handleEmergencyDetection { merged with isEmergency := true }
          (setCall s1 callId { merged with isEmergency := true })
      else s1

/-- `CallMonitorService.endCall`: no-op on an unknown (already evicted) id;
otherwise mark the call ending, freeze the duration, emit `call-ended`,
perform the final persistence write, and evict the session. -/
def endCall (now : Nat) (callId : String) (reason : String)
    (s : MonitorState) : MonitorState :=
  match mapGet s.activeCalls callId with
  | none => s
  | some call =>
    let ended := { call with
      status := CallStatus.ending
      duration := (now - call.startTime) / 1000 }
    delCall
      (writeDb (emitEvent (setCall s callId ended)
          (MonitorEvent.callEnded ended.companyId ended reason))
        (DbWrite.finalRecord callId ended.duration ended.transcript ended.isEmergency))
      callId

/-- The positive-word list of `analyzeSentiment`. -/
def positiveWords : List String :=
  ["thank", "great", "excellent", "perfect", "satisfied", "happy"]

/-- The negative-word list of `analyzeSentiment`. -/
def negativeWords : List String :=
  ["angry", "frustrated", "terrible", "awful", "disappointed", "upset"]

/-- `CallMonitorService.analyzeSentiment`. -/
def analyzeSentiment (transcript : String) : Sentiment :=
  let lowerTranscript := toLowerStr transcript
  let positiveScore := (positiveWords.filter (fun w => strIncludes lowerTranscript w)).length
  let negativeScore := (negativeWords.filter (fun w => strIncludes lowerTranscript w)).length
  if negativeScore < positiveScore then Sentiment.positive
  else if positiveScore < negativeScore then Sentiment.negative
  else Sentiment.neutral

/-- `CallMonitorService.handleVapiUpdate`: find the first live call whose id
contains the Vapi id; for a user message, append the fragment to the
transcript and update via `updateCall`. -/
def handleVapiUpdate (now : Nat) (vapiCallId : String) (role content : String)
    (s : MonitorState) : MonitorState :=
  match s.activeCalls.find? (fun p => strIncludes p.2.id vapiCallId) with
  | none => s
  | some p =>
    if role == "user" then
      let newTranscript := p.2.transcript ++ "\nCustomer: " ++ content
      updateCall now p.2.id
        { transcript := some newTranscript, sentiment := some (analyzeSentiment content) } s
    else s

/-- The operations C2 ranges over: the session-mutating calls that can hit
an existing session between its creation and its eviction. -/
inductive MonitorOp where
  | updateOp (now : Nat) (callId : String) (updates : CallUpdates)
  | vapiOp (now : Nat) (vapiCallId : String) (role content : String)
  | endOp (now : Nat) (callId : String) (reason : String)

/-- Dispatch one operation. -/
def runOp (s : MonitorState) (op : MonitorOp) : MonitorState :=
  match op with
  | MonitorOp.updateOp now callId updates => updateCall now callId updates s
  | MonitorOp.vapiOp now vapiCallId role content => handleVapiUpdate now vapiCallId role content s
  | MonitorOp.endOp now callId reason => endCall now callId reason s

/-- Run a sequence of operations. -/
def runOps (s : MonitorState) (ops : List MonitorOp) : MonitorState := ops.foldl runOp s

/-- An operation that never explicitly overrides the emergency flag to
false: the restriction under which the monotonicity claim holds. -/
def opKeepsFlag : MonitorOp → Bool
  | MonitorOp.updateOp _ _ updates => updates.isEmergency != some false
  | MonitorOp.vapiOp _ _ _ _ => true
  | MonitorOp.endOp _ _ _ => true

/-- Replacing under an existing key makes lookup find the new pair. -/
theorem find?_replace_self (k : String) (v : ActiveCall) :
    ∀ m : List (String × ActiveCall), m.any (fun p => p.1 == k) = true →
      (m.map (fun p => if p.1 == k then (k, v) else p)).find? (fun p => p.1 == k) =
        some (k, v) := by
  intro m
  induction m with
  | nil => intro h; simp at h
  | cons p ps ih =>
    intro hany
    by_cases hp : (p.1 == k) = true
    · simp only [List.map_cons, if_pos hp]
      exact List.find?_cons_of_pos _ (by simp)
    · have hrest : ps.any (fun q => q.1 == k) = true := by
        simp only [List.any_cons, Bool.or_eq_true] at hany
        rcases hany with h | h
        · exact absurd h hp
        · exact h
      simp only [List.map_cons, if_neg hp]
      rw [List.find?_cons_of_neg _ (by simp [hp])]
      exact ih hrest

/-- Appending a new pair to a key-free list makes lookup find it. -/
theorem find?_append_single (k : String) (v : ActiveCall) :
    ∀ m : List (String × ActiveCall), m.any (fun p => p.1 == k) = false →
      (m ++ [(k, v)]).find? (fun p => p.1 == k) = some (k, v) := by
  intro m
  induction m with
  | nil => simp [List.find?_cons_of_pos]
  | cons p ps ih =>
    intro hany
    simp only [List.any_cons, Bool.or_eq_false_iff] at hany
    rw [List.cons_append, List.find?_cons_of_neg _ (by simp [hany.1])]
    exact ih hany.2

/-- Replacing under one key leaves lookups for other keys unchanged. -/
theorem find?_replace_ne (k k' : String) (v : ActiveCall) (hne : k' ≠ k) :
    ∀ m : List (String × ActiveCall),
      (m.map (fun p => if p.1 == k then (k, v) else p)).find? (fun p => p.1 == k') =
        m.find? (fun p => p.1 == k') := by
  have hkk : (k == k') = false := beq_eq_false_iff_ne.mpr (fun h => hne h.symm)
  intro m
  induction m with
  | nil => rfl
  | cons p ps ih =>
    simp only [List.map_cons]
    by_cases hp : (p.1 == k) = true
    · have hpk : p.1 = k := by simpa using hp
      rw [if_pos hp, List.find?_cons_of_neg _ (by simp [hkk]),
        List.find?_cons_of_neg _ (by simp [hpk, hkk])]
      exact ih
    · rw [if_neg hp]
      by_cases hq : (p.1 == k') = true
      · rw [List.find?_cons_of_pos (p := fun q : String × ActiveCall => q.1 == k') _ hq,
          List.find?_cons_of_pos (p := fun q : String × ActiveCall => q.1 == k') _ hq]
      · rw [List.find?_cons_of_neg _ (by simp [hq]), List.find?_cons_of_neg _ (by simp [hq])]
        exact ih

/-- Appending a pair under one key leaves lookups for other keys unchanged. -/
theorem find?_append_ne (k k' : String) (v : ActiveCall) (hne : k' ≠ k) :
    ∀ m : List (String × ActiveCall),
      (m ++ [(k, v)]).find? (fun p => p.1 == k') = m.find? (fun p => p.1 == k') := by
  have hkk : (k == k') = false := beq_eq_false_iff_ne.mpr (fun h => hne h.symm)
  intro m
  induction m with
  | nil => simp [List.find?, hkk]
  | cons p ps ih =>
    rw [List.cons_append]
    by_cases hq : (p.1 == k') = true
    · rw [List.find?_cons_of_pos (p := fun q : String × ActiveCall => q.1 == k') _ hq,
        List.find?_cons_of_pos (p := fun q : String × ActiveCall => q.1 == k') _ hq]
    · rw [List.find?_cons_of_neg _ (by simp [hq]), List.find?_cons_of_neg _ (by simp [hq])]
      exact ih

/-- Deleting one key leaves lookups for other keys unchanged. -/
theorem find?_delete_ne (k k' : String) (hne : k' ≠ k) :
    ∀ m : List (String × ActiveCall),
      (m.filter (fun p => ! (p.1 == k))).find? (fun p => p.1 == k') =
        m.find? (fun p => p.1 == k') := by
  intro m
  induction m with
  | nil => rfl
  | cons p ps ih =>
    by_cases hp : (p.1 == k) = true
    · have hpk : p.1 = k := by simpa using hp
      have hpk' : (p.1 == k') = false := by
        refine beq_eq_false_iff_ne.mpr ?_
        rw [hpk]
        exact fun h => hne h.symm
      rw [List.filter_cons_of_neg (by simp [hp]), List.find?_cons_of_neg _ (by simp [hpk'])]
      exact ih
    · rw [List.filter_cons_of_pos (by simp [hp])]
      by_cases hq : (p.1 == k') = true
      · rw [List.find?_cons_of_pos (p := fun q : String × ActiveCall => q.1 == k') _ hq,
          List.find?_cons_of_pos (p := fun q : String × ActiveCall => q.1 == k') _ hq]
      · rw [List.find?_cons_of_neg _ (by simp [hq]), List.find?_cons_of_neg _ (by simp [hq])]
        exact ih

/-- `mapGet` after `mapSet` at the same key. -/
theorem mapGet_mapSet_self (m : List (String × ActiveCall)) (k : String) (v : ActiveCall) :
    mapGet (mapSet m k v) k = some v := by
  simp only [mapGet, mapSet]
  split
  · next h =>
    rw [find?_replace_self k v m h]
    rfl
  · next h =>
    rw [find?_append_single k v m (by simp only [Bool.not_eq_true] at h; exact h)]
    rfl

/-- `mapGet` after `mapSet` at another key. -/
theorem mapGet_mapSet_ne (m : List (String × ActiveCall)) (k k' : String) (v : ActiveCall)
    (hne : k' ≠ k) : mapGet (mapSet m k v) k' = mapGet m k' := by
  simp only [mapGet, mapSet]
  split
  · rw [find?_replace_ne k k' v hne m]
  · rw [find?_append_ne k k' v hne m]

/-- `mapGet` after `mapDelete` at the deleted key. -/
theorem mapGet_mapDelete_self (m : List (String × ActiveCall)) (k : String) :
    mapGet (mapDelete m k) k = none := by
  have hfind : (m.filter (fun p => ! (p.1 == k))).find? (fun p => p.1 == k) = none := by
    refine List.find?_eq_none.mpr ?_
    intro p hp
    have := (List.mem_filter.mp hp).2
    simp only [Bool.not_eq_eq_eq_not, Bool.not_true] at this
    simp [this]
  simp only [mapGet, mapDelete, hfind]
  rfl

/-- `mapGet` after `mapDelete` at another key. -/
theorem mapGet_mapDelete_ne (m : List (String × ActiveCall)) (k k' : String)
    (hne : k' ≠ k) : mapGet (mapDelete m k) k' = mapGet m k' := by
  simp only [mapGet, mapDelete]
  rw [find?_delete_ne k k' hne m]


/-- Projection: `setCall` only touches the registry. -/
theorem activeCalls_setCall (s : MonitorState) (k : String) (v : ActiveCall) :
    (setCall s k v).activeCalls = mapSet s.activeCalls k v := rfl

/-- Projection: `delCall` only touches the registry. -/
theorem activeCalls_delCall (s : MonitorState) (k : String) :
    (delCall s k).activeCalls = mapDelete s.activeCalls k := rfl

/-- Projection: emitting an event leaves the registry unchanged. -/
theorem activeCalls_emitEvent (s : MonitorState) (ev : MonitorEvent) :
    (emitEvent s ev).activeCalls = s.activeCalls := rfl

/-- Projection: a database write leaves the registry unchanged. -/
theorem activeCalls_writeDb (s : MonitorState) (w : DbWrite) :
    (writeDb s w).activeCalls = s.activeCalls := rfl

/-- Projection: the emergency side effects leave the registry unchanged. -/
theorem activeCalls_handleEmergency (c : ActiveCall) (s : MonitorState) :
    (handleEmergencyDetection c s).activeCalls = s.activeCalls := rfl

/-- One `updateCall` whose updates do not explicitly override the emergency
flag to false keeps a flagged session flagged. -/
theorem updateCall_keeps_flag (now : Nat) (callId : String) (updates : CallUpdates)
    (hupd : updates.isEmergency ≠ some false) (s : MonitorState) (id : String)
    (hflag : (mapGet s.activeCalls id).map ActiveCall.isEmergency = some true) :
    (mapGet (updateCall now callId updates s).activeCalls id).map ActiveCall.isEmergency =
      some true := by
  simp only [updateCall]
  split
  · exact hflag
  · next call hg =>
    rcases eq_or_ne id callId with rfl | hne
    · have hcall : call.isEmergency = true := by
        rw [hg] at hflag
        simpa using hflag
      have hmerged : (mergedCall now call updates).isEmergency = true := by
        simp only [mergedCall, applyCallUpdates]
        cases hu : updates.isEmergency with
        | none => simpa using hcall
        | some b =>
          cases b
          · exact absurd hu hupd
          · simp
      split
      · simp only [activeCalls_emitEvent, activeCalls_setCall]
        rw [mapGet_mapSet_self]
        simpa using hmerged
      · split
        · simp only [activeCalls_handleEmergency, activeCalls_setCall, activeCalls_emitEvent]
          rw [mapGet_mapSet_self]
          simp
        · simp only [activeCalls_emitEvent, activeCalls_setCall]
          rw [mapGet_mapSet_self]
          simpa using hmerged
    · split
      · simp only [activeCalls_emitEvent, activeCalls_setCall]
        rw [mapGet_mapSet_ne _ _ _ _ hne]
        exact hflag
      · split
        · simp only [activeCalls_handleEmergency, activeCalls_setCall, activeCalls_emitEvent]
          rw [mapGet_mapSet_ne _ _ _ _ hne, mapGet_mapSet_ne _ _ _ _ hne]
          exact hflag
        · simp only [activeCalls_emitEvent, activeCalls_setCall]
          rw [mapGet_mapSet_ne _ _ _ _ hne]
          exact hflag

/-- `endCall` either keeps a flagged session flagged or evicts it. -/
theorem endCall_flag (now : Nat) (callId reason : String) (s : MonitorState) (id : String)
    (hflag : (mapGet s.activeCalls id).map ActiveCall.isEmergency = some true) :
    (mapGet (endCall now callId reason s).activeCalls id).map ActiveCall.isEmergency =
        some true ∨
      mapGet (endCall now callId reason s).activeCalls id = none := by
  simp only [endCall]
  split
  · exact Or.inl hflag
  · next call hg =>
    rcases eq_or_ne id callId with rfl | hne
    · right
      simp only [activeCalls_delCall, activeCalls_writeDb, activeCalls_emitEvent]
      exact mapGet_mapDelete_self _ _
    · left
      simp only [activeCalls_delCall, activeCalls_writeDb, activeCalls_emitEvent,
        activeCalls_setCall]
      rw [mapGet_mapDelete_ne _ _ _ hne, mapGet_mapSet_ne _ _ _ _ hne]
      exact hflag

/-- `handleVapiUpdate` keeps a flagged session flagged: the update it issues
never carries an emergency override. -/
theorem handleVapiUpdate_keeps_flag (now : Nat) (vapiCallId role content : String)
    (s : MonitorState) (id : String)
    (hflag : (mapGet s.activeCalls id).map ActiveCall.isEmergency = some true) :
    (mapGet (handleVapiUpdate now vapiCallId role content s).activeCalls id).map
        ActiveCall.isEmergency = some true := by
  simp only [handleVapiUpdate]
  split
  · exact hflag
  · split
    · exact updateCall_keeps_flag _ _ _ (by simp) _ _ hflag
    · exact hflag

/-- One allowed operation keeps a flagged session flagged or evicts it. -/
theorem runOp_keeps_flag (op : MonitorOp) (s : MonitorState) (id : String)
    (hop : opKeepsFlag op = true)
    (hflag : (mapGet s.activeCalls id).map ActiveCall.isEmergency = some true) :
    (mapGet (runOp s op).activeCalls id).map ActiveCall.isEmergency = some true ∨
      mapGet (runOp s op).activeCalls id = none := by
  cases op with
  | updateOp now callId updates =>
    left
    refine updateCall_keeps_flag now callId updates ?_ s id hflag
    simp only [opKeepsFlag, bne, Bool.not_eq_true'] at hop
    intro habs
    rw [habs] at hop
    simp at hop
  | vapiOp now vapiCallId role content =>
    exact Or.inl (handleVapiUpdate_keeps_flag now vapiCallId role content s id hflag)
  | endOp now callId reason =>
    exact endCall_flag now callId reason s id hflag

/-- No operation can re-register an id that is absent from the registry. -/
theorem runOp_preserves_absent (op : MonitorOp) (s : MonitorState) (id : String)
    (habs : mapGet s.activeCalls id = none) :
    mapGet (runOp s op).activeCalls id = none := by
  have hupd : ∀ now callId updates,
      mapGet (updateCall now callId updates s).activeCalls id = none := by
    intro now callId updates
    simp only [updateCall]
    split
    · exact habs
    · next call hg =>
      have hne : id ≠ callId := by
        intro h
        rw [h, hg] at habs
        exact Option.noConfusion habs
      split
      · simp only [activeCalls_emitEvent, activeCalls_setCall]
        rw [mapGet_mapSet_ne _ _ _ _ hne]
        exact habs
      · split
        · simp only [activeCalls_handleEmergency, activeCalls_setCall, activeCalls_emitEvent]
          rw [mapGet_mapSet_ne _ _ _ _ hne, mapGet_mapSet_ne _ _ _ _ hne]
          exact habs
        · simp only [activeCalls_emitEvent, activeCalls_setCall]
          rw [mapGet_mapSet_ne _ _ _ _ hne]
          exact habs
  cases op with
  | updateOp now callId updates => exact hupd now callId updates
  | vapiOp now vapiCallId role content =>
    simp only [runOp, handleVapiUpdate]
    split
    · exact habs
    · split
      · exact hupd _ _ _
      · exact habs
  | endOp now callId reason =>
    simp only [runOp, endCall]
    split
    · exact habs
    · next call hg =>
      have hne : id ≠ callId := by
        intro h
        rw [h, hg] at habs
        exact Option.noConfusion habs
      simp only [activeCalls_delCall, activeCalls_writeDb, activeCalls_emitEvent,
        activeCalls_setCall]
      rw [mapGet_mapDelete_ne _ _ _ hne, mapGet_mapSet_ne _ _ _ _ hne]
      exact habs

/-- An absent id stays absent across any operation sequence. -/
theorem runOps_preserves_absent (ops : List MonitorOp) (s : MonitorState) (id : String)
    (habs : mapGet s.activeCalls id = none) :
    mapGet (runOps s ops).activeCalls id = none := by
  induction ops generalizing s with
  | nil => exact habs
  | cons op rest ih => exact ih (runOp s op) (runOp_preserves_absent op s id habs)

/-- A monitor with no live calls and empty side-effect logs. -/
def emptyMonitorState : MonitorState :=
  { activeCalls := [], events := [], dbWrites := [] }

/-- A session created through the API. -/
def cexStateCreated : MonitorState :=
  addActiveCall 0 "call-1" "company-1" "5551234" emptyMonitorState

/-- The session after a transcript fragment that detects an emergency. -/
def cexStateFlagged : MonitorState :=
  updateCall 1000 "call-1" { transcript := some "no heat in my house" } cexStateCreated

/-- The flagged session after an `updateCall` whose `Partial<ActiveCall>`
argument carries `isEmergency: false`. -/
def cexStateReverted : MonitorState :=
  updateCall 2000 "call-1" { isEmergency := some false } cexStateFlagged

/-- Counterexample to C2 as stated: a session flagged as an emergency is
reverted to non-emergency by a later `updateCall` whose updates argument
sets `isEmergency` to false — `Object.assign(call, updates)` applies the
override and the re-detection guard only runs on transcript updates. -/
theorem isEmergency_not_monotone_counterexample :
    (mapGet cexStateFlagged.activeCalls "call-1").map ActiveCall.isEmergency = some true ∧
    (mapGet cexStateReverted.activeCalls "call-1").map ActiveCall.isEmergency = some false := by
  decide

/-- C2 (amended): across any sequence of `updateCall` / `handleVapiUpdate` /
`endCall` operations in which no `updateCall` carries an explicit
`isEmergency: false` override, a session whose emergency flag is true stays
true until (at most) its eviction; in-repo callers only pass transcript and
sentiment updates, so they satisfy the restriction. -/
theorem isEmergency_monotone : ∀ (ops : List MonitorOp) (s : MonitorState) (id : String),
    (∀ op ∈ ops, opKeepsFlag op = true) →
    (mapGet s.activeCalls id).map ActiveCall.isEmergency = some true →
    ((mapGet (runOps s ops).activeCalls id).map ActiveCall.isEmergency = some true ∨
      mapGet (runOps s ops).activeCalls id = none) := by
  intro ops
  induction ops with
  | nil =>
    intro s id _ hflag
    exact Or.inl hflag
  | cons op rest ih =>
    intro s id hops hflag
    rcases runOp_keeps_flag op s id (hops op (List.mem_cons_self op rest)) hflag with h | h
    · exact ih (runOp s op) id (fun o ho => hops o (List.mem_cons_of_mem op ho)) h
    · exact Or.inr (runOps_preserves_absent rest (runOp s op) id h)

/-- Witness for C2 (amended): a flagged session run through a sentiment
update and a Vapi transcript update stays flagged (or is evicted). -/
theorem isEmergency_monotone_witness :
    (mapGet (runOps cexStateFlagged
        [MonitorOp.updateOp 3000 "call-1" { sentiment := some Sentiment.positive },
         MonitorOp.vapiOp 4000 "call" "user" "thanks so much"]).activeCalls
        "call-1").map ActiveCall.isEmergency = some true ∨
      mapGet (runOps cexStateFlagged
        [MonitorOp.updateOp 3000 "call-1" { sentiment := some Sentiment.positive },
         MonitorOp.vapiOp 4000 "call" "user" "thanks so much"]).activeCalls
        "call-1" = none :=
  isEmergency_monotone
    [MonitorOp.updateOp 3000 "call-1" { sentiment := some Sentiment.positive },
     MonitorOp.vapiOp 4000 "call" "user" "thanks so much"]
    cexStateFlagged "call-1" (by decide) (by decide)

/-- C9: a terminal `endCall` against an id that is absent from the live
registry — never registered or already evicted — changes nothing: no
registry mutation, no event emission, no database write; consequently
replaying the same terminal event twice equals applying it once. -/
theorem endCall_evicted_noop :
    (∀ (now : Nat) (callId reason : String) (s : MonitorState),
      mapGet s.activeCalls callId = none → endCall now callId reason s = s) ∧
    (∀ (now1 now2 : Nat) (callId r1 r2 : String) (s : MonitorState),
      endCall now2 callId r2 (endCall now1 callId r1 s) = endCall now1 callId r1 s) := by
  have hnoop : ∀ (now : Nat) (callId reason : String) (s : MonitorState),
      mapGet s.activeCalls callId = none → endCall now callId reason s = s := by
    intro now callId reason s h
    simp only [endCall, h]
  refine ⟨hnoop, ?_⟩
  intro now1 now2 callId r1 r2 s
  cases hg : mapGet s.activeCalls callId with
  | none => rw [hnoop _ _ _ _ hg, hnoop _ _ _ _ hg]
  | some call =>
    apply hnoop
    simp only [endCall, hg, activeCalls_delCall]
    exact mapGet_mapDelete_self _ _

/-- Witness for C9: ending a never-registered call on the empty monitor is
the identity. -/
theorem endCall_evicted_noop_witness :
    endCall 5 "ghost-call" "completed" emptyMonitorState = emptyMonitorState :=
  endCall_evicted_noop.1 5 "ghost-call" "completed" emptyMonitorState (by decide)
